import Mathlib

/-!
Verification of the zv6 repository: address-space constants and the
stack-pointer accessor from `src/include/riscv.h`, the zombie test program
from `src/user/zombie.c`, and the process-lifecycle / reparenting subsystem
described by the specification (the kernel proper is not among the visible
sources, so that subsystem is modelled from the spec).
-/

namespace Zv6

/-- Bytes per page, from `src/include/riscv.h`: `#define PGSIZE 4096`. -/
def PGSIZE : Nat := 4096

/-- One beyond the highest possible virtual address, from `src/include/riscv.h`:
`#define MAXVA (1L << (9 + 9 + 9 + 12 - 1))`. -/
def MAXVA : Nat := 1 <<< (9 + 9 + 9 + 12 - 1)

/-! ## Machine model for the register accessor `r_sp` -/

/-- Program-visible machine state: the stack pointer register, the other
general-purpose registers (indexed), and data memory. -/
structure Machine where
  sp : Nat
  regs : Nat → Nat
  mem : Nat → Nat

/-- `r_sp` from `src/include/riscv.h`: `mv %0, sp` copies the stack pointer
into a fresh temporary and returns it; no program-visible state is written. -/
def r_sp (m : Machine) : Nat × Machine :=
  (m.sp, m)

/-! ## Trace model of `src/user/zombie.c` -/

/-- System calls the zombie test program may issue. -/
inductive Syscall where
  | fork : Syscall
  | sleep : Nat → Syscall
  | waitpid : Syscall
  | exit_ : Int → Syscall
deriving DecidableEq

/-- The system-call trace of `main` in `src/user/zombie.c`, as a function of
the value returned by `fork()`:
`if (fork() > 0) sleep(5); exit(0);`. -/
def zombieMain (forkRet : Int) : List Syscall :=
  Syscall.fork ::
    (if forkRet > 0 then [Syscall.sleep 5, Syscall.exit_ 0]
     else [Syscall.exit_ 0])

/-- Ticks elapsed before the trace reaches its `exit_` call: only `sleep`
consumes ticks. -/
def exitTime : List Syscall → Nat
  | [] => 0
  | Syscall.sleep n :: rest => n + exitTime rest
  | Syscall.exit_ _ :: _ => 0
  | _ :: rest => exitTime rest

/-! ## Process-lifecycle subsystem

The kernel sources are not among the visible files; the definitions below are
modelled from the spec (sections 3-4): the fixed-capacity process table, the
lifecycle state machine, termination with the reparenting sweep, and the
wait/reap protocol. -/

/-- Modelled from the spec: the lifecycle states of a process table slot. -/
inductive PState where
  | UNUSED | USED | RUNNABLE | RUNNING | SLEEPING | ZOMBIE
deriving DecidableEq

/-- A state in which the process is an active (not yet terminated, occupied)
member of the table: USED, RUNNABLE, RUNNING or SLEEPING. -/
def PState.alive : PState → Bool
  | .USED | .RUNNABLE | .RUNNING | .SLEEPING => true
  | _ => false

/-- Modelled from the spec: a process control block, one per table slot:
identity, lifecycle state, weak parent back-reference (an identity), and the
optional exit status recorded at termination. -/
structure PCB where
  identity : Nat
  pstate : PState
  parent : Nat
  exit_status : Option Int
deriving DecidableEq

/-- Modelled from the spec: the fixed-capacity process table: the slots, the
next fresh identity to issue, and the well-known adopter (init) identity. -/
structure Table where
  slots : List PCB
  nextId : Nat
  adopter : Nat
deriving DecidableEq

/-- Modelled from the spec: errors of the subsystem. -/
inductive PError where
  | ResourceExhausted | NoChildren | InvalidState
deriving DecidableEq

/-- Modelled from the spec: `find_children(parent_id)` produces the occupied
slots whose `parent` equals `parent_id`, in table slot order. -/
def find_children (t : Table) (pid : Nat) : List PCB :=
  t.slots.filter (fun s => decide (s.parent = pid ∧ s.pstate ≠ PState.UNUSED))

/-- The PCB written into the slot claimed by `allocate`. -/
def newPCB (nid pid : Nat) : PCB :=
  { identity := nid, pstate := PState.USED, parent := pid, exit_status := none }

/-- Replace the first UNUSED slot with a freshly initialized PCB; `none` when
every slot is occupied. -/
def allocSlots (nid pid : Nat) : List PCB → Option (List PCB)
  | [] => none
  | s :: rest =>
    if s.pstate = PState.UNUSED then some (newPCB nid pid :: rest)
    else (allocSlots nid pid rest).map (s :: ·)

/-- Modelled from the spec: `allocate()` claims a UNUSED slot, transitions it
to USED with a fresh identity and parent `pid`, or fails with
`ResourceExhausted` when no UNUSED slot exists. -/
def allocate (t : Table) (pid : Nat) : Except PError (Nat × Table) :=
  match allocSlots t.nextId pid t.slots with
  | some slots' => .ok (t.nextId, { t with slots := slots', nextId := t.nextId + 1 })
  | none => .error PError.ResourceExhausted

/-- One slot's update under the reparenting sweep: a slot whose parent is the
terminating identity is re-linked to the adopter. -/
def sweepSlot (tid aid : Nat) (s : PCB) : PCB :=
  if s.parent = tid then { s with parent := aid } else s

/-- Modelled from the spec: the reparenting sweep scans the full table and
re-links every slot whose `parent` equals `tid` to the adopter's identity. -/
def reparentSweep (t : Table) (tid : Nat) : Table :=
  { t with slots := t.slots.map (sweepSlot tid t.adopter) }

/-- One slot's update at termination: the active slot with the terminating
identity records the exit status and becomes ZOMBIE. -/
def exitSlot (sid : Nat) (status : Int) (s : PCB) : PCB :=
  if s.identity = sid ∧ s.pstate.alive then
    { s with pstate := PState.ZOMBIE, exit_status := some status }
  else s

/-- Record the exit status and mark the terminating process ZOMBIE. -/
def markZombie (t : Table) (sid : Nat) (status : Int) : Table :=
  { t with slots := t.slots.map (exitSlot sid status) }

/-- Modelled from the spec: `terminate(self_id, status)` as one atomic step:
record the exit status, transition to ZOMBIE, and run the reparenting sweep. -/
def terminate (t : Table) (sid : Nat) (status : Int) : Table :=
  reparentSweep (markZombie t sid status) sid

/-- One slot's update at reap: the ZOMBIE slot with the reaped identity is
released back to UNUSED. -/
def reapSlot (cid : Nat) (s : PCB) : PCB :=
  if s.identity = cid ∧ s.pstate = PState.ZOMBIE then { s with pstate := PState.UNUSED }
  else s

/-- Outcome of a `wait` call: a reaped child with its status and the updated
table, an immediate error, or blocking (no child is ZOMBIE yet). -/
inductive WaitResult where
  | reaped : Nat → Int → Table → WaitResult
  | err : PError → WaitResult
  | wouldBlock : WaitResult
deriving DecidableEq

/-- Modelled from the spec: `wait(parent_id)` fails with `NoChildren` when the
caller has no children, reaps the first ZOMBIE child in scan order (copying
its identity and status and releasing its slot), or blocks when every child
is still active. -/
def wait (t : Table) (pid : Nat) : WaitResult :=
  let kids := find_children t pid
  if kids.isEmpty then WaitResult.err PError.NoChildren
  else
    match kids.find? (fun s => decide (s.pstate = PState.ZOMBIE)) with
    | some c =>
        WaitResult.reaped c.identity (c.exit_status.getD 0)
          { t with slots := t.slots.map (reapSlot c.identity) }
    | none => WaitResult.wouldBlock

/-- Update every slot carrying identity `pid` to scheduler state `st`. -/
def setStateT (t : Table) (pid : Nat) (st : PState) : Table :=
  { t with slots := t.slots.map (fun s => if s.identity = pid then { s with pstate := st } else s) }

/-- The labels of the subsystem's operations. -/
inductive POp where
  | alloc : Nat → POp
  | sched : Nat → PState → POp
  | exit_ : Nat → Int → POp
  | reap : Nat → POp

/-- Identity `pid` names an active slot of the table. -/
def isAliveId (t : Table) (pid : Nat) : Prop :=
  ∃ s ∈ t.slots, s.identity = pid ∧ s.pstate.alive = true

instance (t : Table) (pid : Nat) : Decidable (isAliveId t pid) :=
  inferInstanceAs (Decidable (∃ s ∈ t.slots, _ ∧ _))

/-- Modelled from the spec: one atomic operation of the subsystem, with its
precondition. Allocation names an active parent; scheduler transitions move an
active process among RUNNABLE/RUNNING/SLEEPING; termination is performed by a
RUNNING process other than the adopter; reap is a successful `wait`. -/
inductive Step : Table → POp → Table → Prop where
  | alloc {t : Table} {pid nid : Nat} {t' : Table} :
      isAliveId t pid → allocate t pid = .ok (nid, t') → Step t (POp.alloc pid) t'
  | sched {t : Table} {pid : Nat} {st : PState} :
      (st = PState.RUNNABLE ∨ st = PState.RUNNING ∨ st = PState.SLEEPING) →
      (∀ s ∈ t.slots, s.identity = pid → s.pstate.alive = true) →
      Step t (POp.sched pid st) (setStateT t pid st)
  | exit_ {t : Table} {sid : Nat} {status : Int} :
      sid ≠ t.adopter →
      (∃ s ∈ t.slots, s.identity = sid ∧ s.pstate = PState.RUNNING) →
      Step t (POp.exit_ sid status) (terminate t sid status)
  | reap {t : Table} {pid cid : Nat} {status : Int} {t' : Table} :
      wait t pid = WaitResult.reaped cid status t' → Step t (POp.reap pid) t'

/-- The initial table: the adopter (identity 1, RUNNING, its own parent) plus
`cap` empty slots. -/
def initTable (cap : Nat) : Table :=
  { slots :=
      { identity := 1, pstate := PState.RUNNING, parent := 1, exit_status := none } ::
        List.replicate cap { identity := 0, pstate := PState.UNUSED, parent := 0, exit_status := none },
    nextId := 2,
    adopter := 1 }

/-- The tables reachable from an initial table by the subsystem's operations. -/
inductive Reachable : Table → Prop where
  | init (cap : Nat) : Reachable (initTable cap)
  | step {t : Table} {op : POp} {t' : Table} : Reachable t → Step t op t' → Reachable t'

/-- No dangling parent link: every occupied slot's parent is the adopter or
names an active slot of the table. -/
def noDangling (t : Table) : Prop :=
  ∀ s ∈ t.slots, s.pstate ≠ PState.UNUSED →
    s.parent = t.adopter ∨ ∃ p ∈ t.slots, p.identity = s.parent ∧ p.pstate.alive = true

/-- Zombie retention: every ZOMBIE slot has its exit status set. -/
def zombieInv (t : Table) : Prop :=
  ∀ s ∈ t.slots, s.pstate = PState.ZOMBIE → s.exit_status.isSome = true

/-- Identity `id` occupies a ZOMBIE slot of the table. -/
def isZombieId (t : Table) (id : Nat) : Prop :=
  ∃ s ∈ t.slots, s.identity = id ∧ s.pstate = PState.ZOMBIE

instance (t : Table) : Decidable (zombieInv t) :=
  inferInstanceAs (Decidable (∀ s ∈ t.slots, s.pstate = PState.ZOMBIE → s.exit_status.isSome = true))

instance (t : Table) : Decidable (noDangling t) :=
  inferInstanceAs (Decidable (∀ s ∈ t.slots, s.pstate ≠ PState.UNUSED →
    s.parent = t.adopter ∨ ∃ p ∈ t.slots, p.identity = s.parent ∧ p.pstate.alive = true))

instance (t : Table) (id : Nat) : Decidable (isZombieId t id) :=
  inferInstanceAs (Decidable (∃ s ∈ t.slots, s.identity = id ∧ s.pstate = PState.ZOMBIE))

end Zv6

namespace Zv6

theorem allocSlots_none_iff (nid pid : Nat) (l : List PCB) :
    allocSlots nid pid l = none ↔ ∀ s ∈ l, s.pstate ≠ PState.UNUSED := by
  induction l with
  | nil => simp [allocSlots]
  | cons a l ih =>
    by_cases ha : a.pstate = PState.UNUSED
    · simp [allocSlots, ha]
    · simp [allocSlots, ha, Option.map_eq_none', ih]

theorem allocSlots_set (nid pid : Nat) {l l' : List PCB}
    (h : allocSlots nid pid l = some l') :
    ∃ i, ∃ hi : i < l.length,
      (l.get ⟨i, hi⟩).pstate = PState.UNUSED ∧ l' = l.set i (newPCB nid pid) := by
  induction l generalizing l' with
  | nil => simp [allocSlots] at h
  | cons a l ih =>
    by_cases ha : a.pstate = PState.UNUSED
    · rw [allocSlots, if_pos ha] at h
      refine ⟨0, by simp, by simpa using ha, ?_⟩
      simpa using h.symm
    · rw [allocSlots, if_neg ha, Option.map_eq_some'] at h
      obtain ⟨r, hr, hcons⟩ := h
      obtain ⟨i, hi, hu, rfl⟩ := ih hr
      exact ⟨i + 1, by simpa using Nat.succ_lt_succ hi, by simpa using hu, by simp [← hcons]⟩

theorem allocSlots_mem_kept (nid pid : Nat) {l l' : List PCB}
    (h : allocSlots nid pid l = some l') :
    ∀ s ∈ l, s.pstate ≠ PState.UNUSED → s ∈ l' := by
  induction l generalizing l' with
  | nil => simp [allocSlots] at h
  | cons a l ih =>
    by_cases ha : a.pstate = PState.UNUSED
    · rw [allocSlots, if_pos ha] at h
      obtain rfl : l' = newPCB nid pid :: l := (Option.some.inj h).symm
      intro s hs hsu
      rcases List.mem_cons.mp hs with rfl | hs
      · exact absurd ha hsu
      · exact List.mem_cons_of_mem _ hs
    · rw [allocSlots, if_neg ha, Option.map_eq_some'] at h
      obtain ⟨r, hr, hcons⟩ := h
      intro s hs hsu
      rcases List.mem_cons.mp hs with rfl | hs
      · exact hcons ▸ List.mem_cons_self _ _
      · exact hcons ▸ List.mem_cons_of_mem _ (ih hr s hs hsu)

theorem allocSlots_mem_src (nid pid : Nat) {l l' : List PCB}
    (h : allocSlots nid pid l = some l') :
    ∀ s ∈ l', s = newPCB nid pid ∨ s ∈ l := by
  obtain ⟨i, hi, _, rfl⟩ := allocSlots_set nid pid h
  intro s hs
  rcases List.mem_or_eq_of_mem_set hs with hs | rfl
  · exact Or.inr hs
  · exact Or.inl rfl

theorem allocSlots_mem_new (nid pid : Nat) {l l' : List PCB}
    (h : allocSlots nid pid l = some l') : newPCB nid pid ∈ l' := by
  obtain ⟨i, hi, _, rfl⟩ := allocSlots_set nid pid h
  exact List.mem_iff_get.mpr ⟨⟨i, by simpa using hi⟩, by simp⟩

theorem allocate_ok (t : Table) (pid : Nat) {nid : Nat} {t' : Table}
    (h : allocate t pid = .ok (nid, t')) :
    nid = t.nextId ∧ allocSlots t.nextId pid t.slots = some t'.slots ∧
      t'.nextId = t.nextId + 1 ∧ t'.adopter = t.adopter := by
  unfold allocate at h
  cases hm : allocSlots t.nextId pid t.slots with
  | none => rw [hm] at h; cases h
  | some l' =>
    rw [hm] at h
    cases h
    exact ⟨rfl, by simp [hm], rfl, rfl⟩

end Zv6

/-- C1: `MAXVA` equals `1 <<< (9+9+9+12-1)` evaluated to `2 ^ 38`
(`0x4000000000`), one bit below the Sv39 maximum `2 ^ 39`, so every legal
address (strictly below `MAXVA`) has bit 38, the sign-extension bit, clear. -/
theorem Zv6.maxva_value_and_top_bit :
    Zv6.MAXVA = 2 ^ 38 ∧ Zv6.MAXVA = 0x4000000000 ∧ 2 * Zv6.MAXVA = 2 ^ 39 ∧
      ∀ a : Nat, a < Zv6.MAXVA → Nat.testBit a 38 = false := by
  refine ⟨by norm_num [Zv6.MAXVA, Nat.shiftLeft_eq], by norm_num [Zv6.MAXVA, Nat.shiftLeft_eq],
    by norm_num [Zv6.MAXVA, Nat.shiftLeft_eq], ?_⟩
  intro a ha
  exact Nat.testBit_eq_false_of_lt (by simpa [Zv6.MAXVA, Nat.shiftLeft_eq] using ha)

/-- Witness for C1 at the concrete address `0x123456789`. -/
theorem Zv6.maxva_value_and_top_bit_witness :
    Nat.testBit 0x123456789 38 = false :=
  Zv6.maxva_value_and_top_bit.2.2.2 0x123456789 (by norm_num [Zv6.MAXVA, Nat.shiftLeft_eq])

/-- C10: `MAXVA` is an exact multiple of `PGSIZE`: `2 ^ 38 % 4096 = 0`, and the
address space below `MAXVA` consists of exactly `2 ^ 26` pages of 4096 bytes. -/
theorem Zv6.maxva_page_aligned :
    Zv6.MAXVA % Zv6.PGSIZE = 0 ∧ Zv6.MAXVA / Zv6.PGSIZE = 2 ^ 26 ∧
      Zv6.MAXVA = 2 ^ 26 * Zv6.PGSIZE := by
  norm_num [Zv6.MAXVA, Zv6.PGSIZE, Nat.shiftLeft_eq]

/-- C8: `r_sp` is a read-only query: it returns the caller's current
stack-pointer value and leaves all program-visible machine state unchanged. -/
theorem Zv6.r_sp_pure (m : Zv6.Machine) :
    (Zv6.r_sp m).1 = m.sp ∧ (Zv6.r_sp m).2 = m :=
  ⟨rfl, rfl⟩

/-- C9: for every possible return value of `fork`, the zombie test's `main`
never calls wait and ends with `exit(0)`; `sleep(5)` appears in the trace
exactly when `fork` returned a positive value, and a failed `fork` (negative
return) exits immediately without sleeping, exactly like the child. -/
theorem Zv6.zombie_main_branches (r : Int) :
    Syscall.waitpid ∉ Zv6.zombieMain r ∧
      (Zv6.zombieMain r).getLast? = some (Syscall.exit_ 0) ∧
      (Syscall.sleep 5 ∈ Zv6.zombieMain r ↔ r > 0) ∧
      (r < 0 → Zv6.zombieMain r = [Syscall.fork, Syscall.exit_ 0]) := by
  by_cases h : r > 0
  · simp [Zv6.zombieMain, h]
    omega
  · simp [Zv6.zombieMain, h]

/-- Witness for C9 at the concrete fork return values `-1`, `0` and `1`. -/
theorem Zv6.zombie_main_branches_witness :
    Zv6.zombieMain (-1) = [Syscall.fork, Syscall.exit_ 0] ∧
      (Syscall.sleep 5 ∈ Zv6.zombieMain 1 ↔ (1 : Int) > 0) ∧
      Syscall.waitpid ∉ Zv6.zombieMain 0 :=
  ⟨(Zv6.zombie_main_branches (-1)).2.2.2 (by norm_num),
    (Zv6.zombie_main_branches 1).2.2.1,
    (Zv6.zombie_main_branches 0).1⟩

/-- C6: `allocate` returns a previously UNUSED slot transitioned to USED with
a fresh identity whenever a UNUSED slot exists (the table keeping its fixed
capacity), and fails with `ResourceExhausted` exactly when no UNUSED slot
exists. Freshness is relative to the table invariant that every occupied
identity is below `nextId`. -/
theorem Zv6.allocate_spec (t : Zv6.Table) (pid : Nat)
    (hbound : ∀ s ∈ t.slots, s.pstate ≠ Zv6.PState.UNUSED → s.identity < t.nextId) :
    ((∃ s ∈ t.slots, s.pstate = Zv6.PState.UNUSED) →
      ∃ t' : Zv6.Table, Zv6.allocate t pid = .ok (t.nextId, t') ∧
        (∃ i, ∃ hi : i < t.slots.length,
          (t.slots.get ⟨i, hi⟩).pstate = Zv6.PState.UNUSED ∧
          t'.slots = t.slots.set i (Zv6.newPCB t.nextId pid)) ∧
        (Zv6.newPCB t.nextId pid).pstate = Zv6.PState.USED ∧
        Zv6.newPCB t.nextId pid ∈ t'.slots ∧
        (∀ s ∈ t.slots, s.pstate ≠ Zv6.PState.UNUSED → s.identity ≠ t.nextId) ∧
        t'.slots.length = t.slots.length) ∧
    (Zv6.allocate t pid = .error Zv6.PError.ResourceExhausted ↔
      ∀ s ∈ t.slots, s.pstate ≠ Zv6.PState.UNUSED) := by
  constructor
  · intro hex
    cases hm : Zv6.allocSlots t.nextId pid t.slots with
    | none =>
      obtain ⟨s, hs, hsu⟩ := hex
      exact absurd hsu ((Zv6.allocSlots_none_iff t.nextId pid t.slots).mp hm s hs)
    | some l' =>
      refine ⟨{ t with slots := l', nextId := t.nextId + 1 }, ?_, ?_, rfl,
        Zv6.allocSlots_mem_new t.nextId pid hm, ?_, ?_⟩
      · unfold Zv6.allocate
        rw [hm]
      · simpa using Zv6.allocSlots_set t.nextId pid hm
      · intro s hs hsu
        exact Nat.ne_of_lt (hbound s hs hsu)
      · obtain ⟨i, hi, _, rfl⟩ := Zv6.allocSlots_set t.nextId pid hm
        simp
  · constructor
    · intro h
      unfold Zv6.allocate at h
      cases hm : Zv6.allocSlots t.nextId pid t.slots with
      | none => exact (Zv6.allocSlots_none_iff t.nextId pid t.slots).mp hm
      | some l' => rw [hm] at h; cases h
    · intro h
      unfold Zv6.allocate
      rw [(Zv6.allocSlots_none_iff t.nextId pid t.slots).mpr h]

/-- Witness for C6 on an initial table with two empty slots. -/
theorem Zv6.allocate_spec_witness :
    ∃ t' : Zv6.Table, Zv6.allocate (Zv6.initTable 2) 1 = .ok ((Zv6.initTable 2).nextId, t') ∧
      (∃ i, ∃ hi : i < (Zv6.initTable 2).slots.length,
        ((Zv6.initTable 2).slots.get ⟨i, hi⟩).pstate = Zv6.PState.UNUSED ∧
        t'.slots = (Zv6.initTable 2).slots.set i (Zv6.newPCB (Zv6.initTable 2).nextId 1)) ∧
      (Zv6.newPCB (Zv6.initTable 2).nextId 1).pstate = Zv6.PState.USED ∧
      Zv6.newPCB (Zv6.initTable 2).nextId 1 ∈ t'.slots ∧
      (∀ s ∈ (Zv6.initTable 2).slots, s.pstate ≠ Zv6.PState.UNUSED →
        s.identity ≠ (Zv6.initTable 2).nextId) ∧
      t'.slots.length = (Zv6.initTable 2).slots.length :=
  (Zv6.allocate_spec (Zv6.initTable 2) 1 (by decide)).1 (by decide)

/-- C3: the reparenting sweep at termination of `tid` scans the entire table,
re-links every slot whose parent is `tid` to the adopter (all other slots are
untouched), and afterwards no (in particular no non-UNUSED) slot has `tid` as
its parent. -/
theorem Zv6.reparent_sweep_correct (t : Zv6.Table) (tid : Nat) (h : tid ≠ t.adopter) :
    (Zv6.reparentSweep t tid).slots = t.slots.map (Zv6.sweepSlot tid t.adopter) ∧
    (∀ s ∈ t.slots, s.parent = tid →
      { s with parent := t.adopter } ∈ (Zv6.reparentSweep t tid).slots) ∧
    (∀ s ∈ t.slots, s.parent ≠ tid → s ∈ (Zv6.reparentSweep t tid).slots) ∧
    (∀ s ∈ (Zv6.reparentSweep t tid).slots, s.parent ≠ tid) ∧
    (∀ s ∈ (Zv6.reparentSweep t tid).slots, s.pstate ≠ Zv6.PState.UNUSED → s.parent ≠ tid) := by
  refine ⟨rfl, ?_, ?_, ?_, ?_⟩
  · intro s hs hp
    exact List.mem_map.mpr ⟨s, hs, by simp [Zv6.sweepSlot, hp]⟩
  · intro s hs hp
    exact List.mem_map.mpr ⟨s, hs, by simp [Zv6.sweepSlot, hp]⟩
  · intro s' hs'
    obtain ⟨s, _, rfl⟩ := List.mem_map.mp hs'
    unfold Zv6.sweepSlot
    by_cases hp : s.parent = tid
    · simpa [hp] using Ne.symm h
    · simp [hp]
  · intro s' hs' _
    obtain ⟨s, hsm, rfl⟩ := List.mem_map.mp hs'
    unfold Zv6.sweepSlot
    by_cases hp : s.parent = tid
    · simpa [hp] using Ne.symm h
    · simp [hp]

/-- Witness for C3 on a concrete table: identity 2 terminates while identity 3
is its child; after the sweep the child belongs to the adopter. -/
theorem Zv6.reparent_sweep_correct_witness :
    { identity := 3, pstate := Zv6.PState.RUNNING, parent := 1,
      exit_status := none : Zv6.PCB } ∈
        (Zv6.reparentSweep
          { slots := [{ identity := 3, pstate := Zv6.PState.RUNNING, parent := 2,
                        exit_status := none }],
            nextId := 4, adopter := 1 } 2).slots :=
  (Zv6.reparent_sweep_correct
      { slots := [{ identity := 3, pstate := Zv6.PState.RUNNING, parent := 2,
                    exit_status := none }],
        nextId := 4, adopter := 1 } 2 (by decide)).2.1
    { identity := 3, pstate := Zv6.PState.RUNNING, parent := 2, exit_status := none }
    (by decide) rfl

/-- C4: `wait` fails with `NoChildren`, without blocking, exactly when the
caller has no direct children at call time; it blocks only when the caller
has at least one direct child and none of them is ZOMBIE. -/
theorem Zv6.wait_no_children_spec (t : Zv6.Table) (pid : Nat) :
    (Zv6.wait t pid = Zv6.WaitResult.err Zv6.PError.NoChildren ↔
      Zv6.find_children t pid = []) ∧
    (Zv6.wait t pid = Zv6.WaitResult.wouldBlock →
      Zv6.find_children t pid ≠ [] ∧
        ∀ c ∈ Zv6.find_children t pid, c.pstate ≠ Zv6.PState.ZOMBIE) := by
  unfold Zv6.wait
  by_cases hk : (Zv6.find_children t pid).isEmpty
  · rw [if_pos hk]
    simp_all [List.isEmpty_iff]
  · rw [if_neg hk]
    cases hf : (Zv6.find_children t pid).find? (fun s => decide (s.pstate = Zv6.PState.ZOMBIE)) with
    | none =>
      constructor
      · constructor
        · intro h; cases h
        · intro h; exact absurd (List.isEmpty_iff.mpr h) hk
      · intro _
        refine ⟨fun h => absurd (List.isEmpty_iff.mpr h) hk, fun c hc => ?_⟩
        have := List.find?_eq_none.mp hf c hc
        simpa using this
    | some c =>
      constructor
      · constructor
        · intro h; cases h
        · intro h; exact absurd (List.isEmpty_iff.mpr h) hk
      · intro h; cases h

/-- Witness for C4: on the initial table, a `wait` by a process with no
children fails with `NoChildren` because its child list is empty. -/
theorem Zv6.wait_no_children_spec_witness :
    Zv6.wait (Zv6.initTable 2) 7 = Zv6.WaitResult.err Zv6.PError.NoChildren :=
  (Zv6.wait_no_children_spec (Zv6.initTable 2) 7).1.mpr (by decide)

namespace Zv6

theorem sweepSlot_pstate (tid aid : Nat) (s : PCB) : (sweepSlot tid aid s).pstate = s.pstate := by
  by_cases h : s.parent = tid <;> simp [sweepSlot, h]

theorem sweepSlot_identity (tid aid : Nat) (s : PCB) :
    (sweepSlot tid aid s).identity = s.identity := by
  by_cases h : s.parent = tid <;> simp [sweepSlot, h]

theorem sweepSlot_exit_status (tid aid : Nat) (s : PCB) :
    (sweepSlot tid aid s).exit_status = s.exit_status := by
  by_cases h : s.parent = tid <;> simp [sweepSlot, h]

theorem exitSlot_of_not_alive (sid : Nat) (status : Int) (s : PCB)
    (h : s.pstate.alive = false) : exitSlot sid status s = s := by
  simp [exitSlot, h]

theorem zombie_not_alive {s : PCB} (h : s.pstate = PState.ZOMBIE) : s.pstate.alive = false := by
  rw [h]; rfl

theorem terminate_slots (t : Table) (sid : Nat) (status : Int) :
    (terminate t sid status).slots =
      t.slots.map (fun s => sweepSlot sid t.adopter (exitSlot sid status s)) := by
  simp [terminate, reparentSweep, markZombie, List.map_map]

theorem terminate_adopter (t : Table) (sid : Nat) (status : Int) :
    (terminate t sid status).adopter = t.adopter := rfl

theorem wait_reaped {t : Table} {pid cid : Nat} {status : Int} {t' : Table}
    (hw : wait t pid = WaitResult.reaped cid status t') :
    ∃ c ∈ find_children t pid, c.pstate = PState.ZOMBIE ∧ cid = c.identity ∧
      t' = { t with slots := t.slots.map (reapSlot c.identity) } := by
  simp only [wait] at hw
  by_cases hk : (find_children t pid).isEmpty
  · rw [if_pos hk] at hw; cases hw
  · rw [if_neg hk] at hw
    cases hf : (find_children t pid).find? (fun s => decide (s.pstate = PState.ZOMBIE)) with
    | none => rw [hf] at hw; cases hw
    | some c =>
      rw [hf] at hw
      cases hw
      have hmem := List.mem_of_find?_eq_some hf
      have hzc := List.find?_some hf
      exact ⟨c, hmem, by simpa using hzc, rfl, rfl⟩

end Zv6

/-- C7: every operation of the subsystem preserves the zombie-retention
invariant: a ZOMBIE slot always has its exit status set, and a ZOMBIE identity
keeps occupying table capacity (it can only cease to be a ZOMBIE slot through
a reap operation). -/
theorem Zv6.zombie_retention_inv {t : Zv6.Table} {op : Zv6.POp} {t' : Zv6.Table}
    (hstep : Zv6.Step t op t') (hinv : Zv6.zombieInv t) :
    Zv6.zombieInv t' ∧
      ∀ id, Zv6.isZombieId t id → ¬ Zv6.isZombieId t' id →
        ∃ pid, op = Zv6.POp.reap pid := by
  cases hstep with
  | alloc hal hok =>
    obtain ⟨-, hsl, -, -⟩ := Zv6.allocate_ok _ _ hok
    constructor
    · intro s hs hz
      rcases Zv6.allocSlots_mem_src _ _ hsl s hs with rfl | hsrc
      · simp [Zv6.newPCB] at hz
      · exact hinv s hsrc hz
    · intro id hz hnz
      obtain ⟨s, hs, hid, hzs⟩ := hz
      refine absurd ⟨s, ?_, hid, hzs⟩ hnz
      exact Zv6.allocSlots_mem_kept _ _ hsl s hs (by simp [hzs])
  | @sched pid st hst halive =>
    constructor
    · intro s' hs' hz'
      obtain ⟨s, hs, rfl⟩ := List.mem_map.mp hs'
      by_cases hid : s.identity = pid
      · rw [if_pos hid] at hz'
        rcases hst with rfl | rfl | rfl <;> cases hz'
      · rw [if_neg hid] at hz' ⊢
        exact hinv s hs hz'
    · intro id hz hnz
      obtain ⟨s, hs, hid, hzs⟩ := hz
      by_cases hp : s.identity = pid
      · exact absurd (halive s hs hp) (by simp [Zv6.zombie_not_alive hzs])
      · refine absurd ⟨s, ?_, hid, hzs⟩ hnz
        exact List.mem_map.mpr ⟨s, hs, by rw [if_neg hp]⟩
  | @exit_ sid status hna hrun =>
    constructor
    · intro s' hs' hz'
      rw [Zv6.terminate_slots] at hs'
      obtain ⟨s, hs, rfl⟩ := List.mem_map.mp hs'
      rw [Zv6.sweepSlot_pstate] at hz'
      rw [Zv6.sweepSlot_exit_status]
      unfold Zv6.exitSlot at hz' ⊢
      by_cases hc : s.identity = sid ∧ s.pstate.alive = true
      · rw [if_pos hc] at hz' ⊢
        rfl
      · rw [if_neg hc] at hz' ⊢
        exact hinv s hs hz'
    · intro id hz hnz
      obtain ⟨s, hs, hid, hzs⟩ := hz
      refine absurd ⟨Zv6.sweepSlot sid t.adopter (Zv6.exitSlot sid status s), ?_, ?_, ?_⟩ hnz
      · rw [Zv6.terminate_slots]
        exact List.mem_map.mpr ⟨s, hs, rfl⟩
      · rw [Zv6.sweepSlot_identity,
          Zv6.exitSlot_of_not_alive sid status s (Zv6.zombie_not_alive hzs), hid]
      · rw [Zv6.sweepSlot_pstate,
          Zv6.exitSlot_of_not_alive sid status s (Zv6.zombie_not_alive hzs), hzs]
  | reap hw =>
    obtain ⟨c, hc, hzc, rfl, rfl⟩ := Zv6.wait_reaped hw
    refine ⟨?_, fun id _ _ => ⟨_, rfl⟩⟩
    intro s' hs' hz'
    obtain ⟨s, hs, rfl⟩ := List.mem_map.mp hs'
    unfold Zv6.reapSlot at hz' ⊢
    by_cases hcnd : s.identity = c.identity ∧ s.pstate = Zv6.PState.ZOMBIE
    · rw [if_pos hcnd] at hz'; cases hz'
    · rw [if_neg hcnd] at hz' ⊢
      exact hinv s hs hz'

/-- Witness for C7: a concrete allocation step on the initial table preserves
the invariant. -/
theorem Zv6.zombie_retention_inv_witness :
    Zv6.zombieInv (Zv6.setStateT (Zv6.initTable 2) 1 Zv6.PState.SLEEPING) :=
  (Zv6.zombie_retention_inv
      (Zv6.Step.sched (Or.inr (Or.inr rfl)) (by decide))
      (by decide)).1

namespace Zv6

theorem exitSlot_parent (sid : Nat) (status : Int) (s : PCB) :
    (exitSlot sid status s).parent = s.parent := by
  by_cases h : s.identity = sid ∧ s.pstate.alive = true <;> simp [exitSlot, h]

theorem exitSlot_identity (sid : Nat) (status : Int) (s : PCB) :
    (exitSlot sid status s).identity = s.identity := by
  by_cases h : s.identity = sid ∧ s.pstate.alive = true <;> simp [exitSlot, h]

theorem exitSlot_pstate_ne_unused (sid : Nat) (status : Int) (s : PCB)
    (h : s.pstate ≠ PState.UNUSED) : (exitSlot sid status s).pstate ≠ PState.UNUSED := by
  by_cases hc : s.identity = sid ∧ s.pstate.alive = true
  · simp [exitSlot, hc]
  · simpa [exitSlot, hc] using h

theorem sweepSlot_parent_ne (tid aid : Nat) (h : aid ≠ tid) (s : PCB) :
    (sweepSlot tid aid s).parent ≠ tid := by
  by_cases hp : s.parent = tid
  · simpa [sweepSlot, hp] using h
  · simp [sweepSlot, hp]

theorem unused_not_alive : PState.UNUSED.alive = false := rfl

theorem alive_ne_unused {s : PCB} (h : s.pstate.alive = true) : s.pstate ≠ PState.UNUSED := by
  intro hu
  rw [hu] at h
  cases h

end Zv6

/-- C5: immediately after a process `sid` terminates, every child it owned is
found among the adopter's children and `find_children sid` is empty; moreover
no reachable table state exhibits a dangling parent link (every occupied
slot's parent is the adopter or an active process). -/
theorem Zv6.reparent_no_dangling :
    (∀ (t : Zv6.Table) (sid : Nat) (status : Int), sid ≠ t.adopter →
      Zv6.find_children (Zv6.terminate t sid status) sid = [] ∧
      ∀ c ∈ t.slots, c.parent = sid → c.pstate ≠ Zv6.PState.UNUSED →
        ∃ c' ∈ Zv6.find_children (Zv6.terminate t sid status) t.adopter,
          c'.identity = c.identity) ∧
    (∀ t : Zv6.Table, Zv6.Reachable t → Zv6.noDangling t) := by
  constructor
  · intro t sid status hsid
    constructor
    · rw [Zv6.find_children, List.filter_eq_nil_iff]
      intro s' hs'
      rw [Zv6.terminate_slots] at hs'
      obtain ⟨s, hs, rfl⟩ := List.mem_map.mp hs'
      simp only [decide_eq_true_eq, not_and]
      intro hp
      exact absurd hp (Zv6.sweepSlot_parent_ne sid t.adopter (Ne.symm hsid) _)
    · intro c hc hcp hcu
      refine ⟨Zv6.sweepSlot sid t.adopter (Zv6.exitSlot sid status c), ?_, ?_⟩
      · rw [Zv6.find_children]
        refine List.mem_filter.mpr ⟨?_, ?_⟩
        · rw [Zv6.terminate_slots]
          exact List.mem_map.mpr ⟨c, hc, rfl⟩
        · have hpar : (Zv6.sweepSlot sid t.adopter (Zv6.exitSlot sid status c)).parent
              = t.adopter := by
            simp [Zv6.sweepSlot, Zv6.exitSlot_parent, hcp]
          have hpst : (Zv6.sweepSlot sid t.adopter (Zv6.exitSlot sid status c)).pstate
              ≠ Zv6.PState.UNUSED := by
            rw [Zv6.sweepSlot_pstate]
            exact Zv6.exitSlot_pstate_ne_unused sid status c hcu
          simp only [decide_eq_true_eq]
          exact ⟨hpar, hpst⟩
      · rw [Zv6.sweepSlot_identity, Zv6.exitSlot_identity]
  · intro t hr
    induction hr with
    | init cap =>
      intro s hs hsu
      rcases List.mem_cons.mp hs with rfl | hs
      · exact Or.inl rfl
      · have := List.eq_of_mem_replicate hs
        rw [this] at hsu
        exact absurd rfl hsu
    | @step t op t' hr hstep ih =>
      cases hstep with
      | alloc hal hok =>
        obtain ⟨-, hsl, -, had⟩ := Zv6.allocate_ok _ _ hok
        intro s hs hsu
        rcases Zv6.allocSlots_mem_src _ _ hsl s hs with rfl | hsrc
        · obtain ⟨p, hp, hpid, hpal⟩ := hal
          right
          exact ⟨p, Zv6.allocSlots_mem_kept _ _ hsl p hp (Zv6.alive_ne_unused hpal),
            by simp [Zv6.newPCB, hpid], hpal⟩
        · rcases ih s hsrc hsu with hpad | ⟨p, hp, hpi, hpal⟩
          · left
            rw [had, hpad]
          · right
            exact ⟨p, Zv6.allocSlots_mem_kept _ _ hsl p hp (Zv6.alive_ne_unused hpal),
              hpi, hpal⟩
      | @sched pid st hst halive =>
        intro s' hs' hsu'
        obtain ⟨s, hs, rfl⟩ := List.mem_map.mp hs'
        have hsu : s.pstate ≠ Zv6.PState.UNUSED := by
          intro hu
          by_cases hid : s.identity = pid
          · exact Zv6.alive_ne_unused (halive s hs hid) hu
          · rw [if_neg hid] at hsu'
            exact hsu' hu
        have hpar : (if s.identity = pid then { s with pstate := st } else s).parent
            = s.parent := by
          by_cases hid : s.identity = pid <;> simp [hid]
        rw [hpar]
        rcases ih s hs hsu with hpad | ⟨p, hp, hpi, hpal⟩
        · exact Or.inl hpad
        · right
          refine ⟨if p.identity = pid then { p with pstate := st } else p,
            List.mem_map.mpr ⟨p, hp, rfl⟩, ?_, ?_⟩
          · by_cases hpi2 : p.identity = pid
            · rw [if_pos hpi2]
              exact hpi
            · rw [if_neg hpi2]
              exact hpi
          · by_cases hpi2 : p.identity = pid
            · rw [if_pos hpi2]
              rcases hst with rfl | rfl | rfl <;> rfl
            · rw [if_neg hpi2]
              exact hpal
      | @exit_ sid status hna hrun =>
        intro s' hs' hsu'
        rw [Zv6.terminate_slots] at hs'
        obtain ⟨s, hs, rfl⟩ := List.mem_map.mp hs'
        have hsu : s.pstate ≠ Zv6.PState.UNUSED := by
          intro hu
          rw [Zv6.sweepSlot_pstate,
            Zv6.exitSlot_of_not_alive sid status s (by rw [hu]; rfl)] at hsu'
          exact hsu' hu
        by_cases hp : s.parent = sid
        · left
          have : (Zv6.sweepSlot sid t.adopter (Zv6.exitSlot sid status s)).parent
              = t.adopter := by
            simp [Zv6.sweepSlot, Zv6.exitSlot_parent, hp]
          rw [this, Zv6.terminate_adopter]
        · have hpar : (Zv6.sweepSlot sid t.adopter (Zv6.exitSlot sid status s)).parent
              = s.parent := by
            simp [Zv6.sweepSlot, Zv6.exitSlot_parent, hp]
          rw [hpar]
          rcases ih s hs hsu with hpad | ⟨p, hp2, hpi, hpal⟩
          · left
            rw [Zv6.terminate_adopter, hpad]
          · right
            refine ⟨Zv6.sweepSlot sid t.adopter (Zv6.exitSlot sid status p), ?_, ?_, ?_⟩
            · rw [Zv6.terminate_slots]
              exact List.mem_map.mpr ⟨p, hp2, rfl⟩
            · rw [Zv6.sweepSlot_identity, Zv6.exitSlot_identity, hpi]
            · have hpne : Zv6.exitSlot sid status p = p := by
                unfold Zv6.exitSlot
                rw [if_neg]
                intro hcond
                exact hp (hpi.symm.trans hcond.1)
              rw [Zv6.sweepSlot_pstate, hpne]
              exact hpal
      | reap hw =>
        obtain ⟨c, hcm, hcz, rfl, rfl⟩ := Zv6.wait_reaped hw
        intro s' hs' hsu'
        obtain ⟨s, hs, rfl⟩ := List.mem_map.mp hs'
        have hsne : Zv6.reapSlot c.identity s = s := by
          unfold Zv6.reapSlot at hsu' ⊢
          by_cases hc2 : s.identity = c.identity ∧ s.pstate = Zv6.PState.ZOMBIE
          · rw [if_pos hc2] at hsu'
            exact absurd rfl hsu'
          · rw [if_neg hc2]
        rw [hsne] at hsu' ⊢
        rcases ih s hs hsu' with hpad | ⟨p, hp2, hpi, hpal⟩
        · exact Or.inl hpad
        · right
          have hpne : Zv6.reapSlot c.identity p = p := by
            unfold Zv6.reapSlot
            rw [if_neg]
            intro hcond
            rw [hcond.2] at hpal
            cases hpal
          refine ⟨Zv6.reapSlot c.identity p, List.mem_map.mpr ⟨p, hp2, rfl⟩, ?_, ?_⟩
          · rw [hpne, hpi]
          · rw [hpne]
            exact hpal

/-- Witness for C5: a concrete termination with one child, and the invariant
on an initial table. -/
theorem Zv6.reparent_no_dangling_witness :
    Zv6.find_children
        (Zv6.terminate
          { slots := [{ identity := 3, pstate := Zv6.PState.RUNNING, parent := 2,
                        exit_status := none }],
            nextId := 4, adopter := 1 } 2 0) 2 = [] ∧
      Zv6.noDangling (Zv6.initTable 2) :=
  ⟨(Zv6.reparent_no_dangling.1
      { slots := [{ identity := 3, pstate := Zv6.PState.RUNNING, parent := 2,
                    exit_status := none }],
        nextId := 4, adopter := 1 } 2 0 (by decide)).1,
    Zv6.reparent_no_dangling.2 (Zv6.initTable 2) (Zv6.Reachable.init 2)⟩

namespace Zv6

/-- Run `allocate` for its table update (the fresh identity is discarded);
the table is unchanged on failure. -/
def allocD (t : Table) (pid : Nat) : Table :=
  match allocate t pid with
  | .ok (_, t') => t'
  | .error _ => t

/-- The zombie scenario: the adopter (identity 1) creates the test's parent
process (identity 2), which forks the child (identity 3); the child exits
first, while the parent is still running. -/
def zombieChildExited : Table :=
  terminate
    (setStateT (allocD (setStateT (allocD (initTable 3) 1) 2 PState.RUNNING) 2) 3 PState.RUNNING)
    3 0

/-- The zombie scenario after the parent (identity 2) has also exited. -/
def zombieParentExited : Table :=
  terminate zombieChildExited 2 0

end Zv6

/-- C2: with a positive `fork` return the parent's trace is
fork-sleep(5)-exit(0) while the child's (`fork` returning 0) is fork-exit(0),
so the child reaches its exit strictly earlier than the parent (0 ticks
versus 5); when the parent exits, the child is still a ZOMBIE slot whose
parent link names the parent — exactly the situation in which the child must
be (and, in the modelled lifecycle, is) reparented to the adopter at the
parent's exit. -/
theorem Zv6.zombie_scenario (r : Int) (h : r > 0) :
    Zv6.zombieMain r = [Syscall.fork, Syscall.sleep 5, Syscall.exit_ 0] ∧
    Zv6.zombieMain 0 = [Syscall.fork, Syscall.exit_ 0] ∧
    Zv6.exitTime (Zv6.zombieMain 0) < Zv6.exitTime (Zv6.zombieMain r) ∧
    (∃ c ∈ Zv6.zombieChildExited.slots,
      c.identity = 3 ∧ c.pstate = Zv6.PState.ZOMBIE ∧ c.parent = 2) ∧
    (∃ p ∈ Zv6.zombieChildExited.slots,
      p.identity = 2 ∧ p.pstate = Zv6.PState.RUNNING) ∧
    (∃ c ∈ Zv6.zombieParentExited.slots,
      c.identity = 3 ∧ c.pstate = Zv6.PState.ZOMBIE ∧
        c.parent = Zv6.zombieParentExited.adopter) := by
  have htr : Zv6.zombieMain r = [Syscall.fork, Syscall.sleep 5, Syscall.exit_ 0] := by
    simp [Zv6.zombieMain, h]
  refine ⟨htr, by decide, ?_, by decide, by decide, by decide⟩
  rw [htr]
  decide

/-- Witness for C2 at the concrete fork return value 1. -/
theorem Zv6.zombie_scenario_witness :
    Zv6.zombieMain 1 = [Syscall.fork, Syscall.sleep 5, Syscall.exit_ 0] ∧
      Zv6.exitTime (Zv6.zombieMain 0) < Zv6.exitTime (Zv6.zombieMain 1) :=
  ⟨(Zv6.zombie_scenario 1 (by norm_num)).1,
    (Zv6.zombie_scenario 1 (by norm_num)).2.2.1⟩
